import Mathlib

/- Verification development for the backlogd product backlog manager.

   The definitions below are a shallow embedding of the Python source
   `backlogd.py`: the `BacklogManager` store becomes a `Store` record holding
   the in-memory project dictionary and the persisted per-project documents,
   and each manager method becomes a pure function on `Store`.  Timestamps
   (`datetime.now().isoformat()`) are passed in as explicit `now : String`
   arguments; interactive confirmations (`Confirm.ask`) become explicit
   `Bool` arguments.  Python dictionaries are modelled as insertion-ordered
   association lists with unique keys, matching dict semantics for the
   operations the code performs. -/

namespace Backlogd

/-- Decimal digit list of a natural number, fuel-based so that it reduces by
kernel computation.  Models Python decimal formatting of a nonnegative int. -/
def reprDigitsAux : Nat → Nat → List Char
  | 0, _ => []
  | fuel + 1, n =>
    if n < 10 then [Nat.digitChar n]
    else reprDigitsAux fuel (n / 10) ++ [Nat.digitChar (n % 10)]

/-- Decimal rendering of a natural number, as produced by Python f-string
interpolation of an `int` (e.g. `f"P-3"`). -/
def natRepr (n : Nat) : String :=
  String.mk (reprDigitsAux (n + 1) n)

/-- Numeric value of a decimal digit character. -/
def digitVal (c : Char) : Nat := c.toNat - '0'.toNat

/-- Decode a decimal digit list back to the number it renders. -/
def decodeDigits (l : List Char) : Nat :=
  l.foldl (fun a c => a * 10 + digitVal c) 0

theorem digitVal_digitChar : ∀ n < 10, digitVal (Nat.digitChar n) = n := by decide

theorem decode_reprDigitsAux : ∀ fuel n, n < fuel → decodeDigits (reprDigitsAux fuel n) = n := by
  intro fuel
  induction fuel with
  | zero => intro n h; omega
  | succ fuel ih =>
    intro n h
    by_cases h10 : n < 10
    · simp [reprDigitsAux, h10, decodeDigits, digitVal_digitChar n h10]
    · have hdiv : n / 10 < n := Nat.div_lt_self (by omega) (by omega)
      have hfuel : n / 10 < fuel := by omega
      have hmod : n % 10 < 10 := Nat.mod_lt _ (by omega)
      simp only [reprDigitsAux, h10, if_false, decodeDigits, List.foldl_append, List.foldl_cons,
        List.foldl_nil]
      have ihd := ih (n / 10) hfuel
      simp only [decodeDigits] at ihd
      rw [ihd, digitVal_digitChar _ hmod]
      omega

theorem natRepr_injective : Function.Injective natRepr := by
  intro a b h
  have hdata : reprDigitsAux (a + 1) a = reprDigitsAux (b + 1) b := congrArg String.data h
  have ha := decode_reprDigitsAux (a + 1) a (by omega)
  have hb := decode_reprDigitsAux (b + 1) b (by omega)
  rw [hdata, hb] at ha
  exact ha.symm

theorem append_natRepr_injective (pre : String) :
    Function.Injective (fun n => pre ++ natRepr n) := by
  intro a b h
  have hdata : pre.data ++ (natRepr a).data = pre.data ++ (natRepr b).data := by
    have := congrArg String.data h
    simpa [String.data_append] using this
  have h2 : (natRepr a).data = (natRepr b).data := List.append_cancel_left hdata
  have h3 : natRepr a = natRepr b := by
    cases hra : natRepr a
    cases hrb : natRepr b
    simp_all
  exact natRepr_injective h3

/-- The collision-scan loop of `generate_item_id`: starting at `c`, increment
the counter while `f"{pre}{counter}"` is already among `ids`.  The Python
`while` loop is modelled with explicit fuel; `ids.length + 1` fuel always
suffices (see `findCounter_not_mem`). -/
def findCounter (ids : List String) (pre : String) : Nat → Nat → Nat
  | 0, c => c
  | fuel + 1, c =>
    if ids.contains (pre ++ natRepr c) then findCounter ids pre fuel (c + 1) else c

theorem findCounter_ge (ids : List String) (pre : String) :
    ∀ fuel c, c ≤ findCounter ids pre fuel c := by
  intro fuel
  induction fuel with
  | zero => intro c; exact Nat.le_refl c
  | succ fuel ih =>
    intro c
    rw [findCounter]
    by_cases h : ids.contains (pre ++ natRepr c) = true
    · rw [if_pos h]
      have := ih (c + 1)
      omega
    · rw [if_neg h]

theorem findCounter_collides_below (ids : List String) (pre : String) :
    ∀ fuel c k, c ≤ k → k < findCounter ids pre fuel c →
      ids.contains (pre ++ natRepr k) = true := by
  intro fuel
  induction fuel with
  | zero => intro c k hck hk; rw [findCounter] at hk; omega
  | succ fuel ih =>
    intro c k hck hk
    rw [findCounter] at hk
    by_cases h : ids.contains (pre ++ natRepr c) = true
    · rw [if_pos h] at hk
      rcases Nat.eq_or_lt_of_le hck with rfl | hlt
      · exact h
      · exact ih (c + 1) k hlt hk
    · rw [if_neg h] at hk
      omega

theorem findCounter_not_mem (ids : List String) (pre : String) :
    ∀ fuel c,
      (List.range fuel).countP (fun j => ids.contains (pre ++ natRepr (c + j))) < fuel →
      ids.contains (pre ++ natRepr (findCounter ids pre fuel c)) = false := by
  intro fuel
  induction fuel with
  | zero => intro c h; simp at h
  | succ fuel ih =>
    intro c h
    rw [findCounter]
    by_cases hc : ids.contains (pre ++ natRepr c) = true
    · rw [if_pos hc]
      have hsplit :
          (List.range (fuel + 1)).countP (fun j => ids.contains (pre ++ natRepr (c + j))) =
            (List.range fuel).countP (fun j => ids.contains (pre ++ natRepr (c + 1 + j))) + 1 := by
        rw [List.range_succ_eq_map, List.countP_cons, List.countP_map]
        have hfun : ((fun j => ids.contains (pre ++ natRepr (c + j))) ∘ Nat.succ) =
            (fun j => ids.contains (pre ++ natRepr (c + 1 + j))) := by
          funext j
          have hj : c + Nat.succ j = c + 1 + j := by omega
          simp [Function.comp, hj]
        rw [hfun]
        have hmem : pre ++ natRepr c ∈ ids := by simpa using hc
        simp [Nat.add_zero, hmem]
      rw [hsplit] at h
      exact ih (c + 1) (by omega)
    · rw [if_neg hc]
      exact Bool.eq_false_iff.mpr hc

theorem countP_window_lt (ids : List String) (pre : String) (c : Nat) :
    (List.range (ids.length + 1)).countP (fun j => ids.contains (pre ++ natRepr (c + j))) <
      ids.length + 1 := by
  by_contra hcon
  push_neg at hcon
  have hle : (List.range (ids.length + 1)).countP
      (fun j => ids.contains (pre ++ natRepr (c + j))) ≤ (List.range (ids.length + 1)).length :=
    List.countP_le_length _
  rw [List.length_range] at hle
  have heq : (List.range (ids.length + 1)).countP
      (fun j => ids.contains (pre ++ natRepr (c + j))) = (List.range (ids.length + 1)).length := by
    rw [List.length_range]; omega
  have hall := List.countP_eq_length.mp heq
  set L := (List.range (ids.length + 1)).map (fun j => pre ++ natRepr (c + j)) with hL
  have hnodup : L.Nodup := by
    apply (List.nodup_range _).map
    intro a b hab
    have := append_natRepr_injective pre hab
    omega
  have hsub : L ⊆ ids := by
    intro x hx
    rw [hL, List.mem_map] at hx
    obtain ⟨j, hj, rfl⟩ := hx
    have := hall j hj
    simpa using this
  have hlen := (List.subperm_of_subset hnodup hsub).length_le
  have : L.length = ids.length + 1 := by simp [hL]
  omega

theorem findCounter_result_free (ids : List String) (pre : String) (c : Nat) :
    (pre ++ natRepr (findCounter ids pre (ids.length + 1) c)) ∉ ids := by
  have h := findCounter_not_mem ids pre (ids.length + 1) c (countP_window_lt ids pre c)
  intro hmem
  have : ids.contains (pre ++ natRepr (findCounter ids pre (ids.length + 1) c)) = true := by
    simpa using hmem
  rw [h] at this
  exact Bool.noConfusion this

/-- Python `str.upper()`, modelled character by character (the program only
uppercases project names). -/
def pyUpper (s : String) : String := String.mk (s.data.map Char.toUpper)

/-- Python `str.lower()`, modelled character by character (the program only
lowercases command tokens). -/
def pyLower (s : String) : String := String.mk (s.data.map Char.toLower)

/-- A backlog item, mirroring the `BacklogItem` dataclass field for field.
Python `Optional[str]` becomes `Option String`; `Optional[int]` becomes
`Option Int`.  In memory `created_at` and `updated_at` are always strings
after `__post_init__` has run, so they are plain `String`s here. -/
structure BacklogItem where
  id : String
  title : String
  description : String
  priority : String
  status : String
  sprint : Option String
  epic : Option String
  assignee : Option String
  story_points : Option Int
  created_at : String
  updated_at : String
deriving DecidableEq

/-- Construction of a `BacklogItem`, including `__post_init__`: a missing or
falsy (`None` or empty) `created_at` is replaced by the current time, and
`updated_at` is unconditionally set to the current time. -/
def mkBacklogItem (id title description priority status : String)
    (sprint epic assignee : Option String) (story_points : Option Int)
    (created_at : Option String) (now : String) : BacklogItem :=
  { id := id, title := title, description := description, priority := priority,
    status := status, sprint := sprint, epic := epic, assignee := assignee,
    story_points := story_points,
    created_at :=
      match created_at with
      | none => now
      | some s => if s == "" then now else s,
    updated_at := now }

/-- Lookup in an insertion-ordered dictionary modelled as an association
list, first match wins (keys are unique in every dict the program builds). -/
def dictLookup {α : Type} : List (String × α) → String → Option α
  | [], _ => none
  | (k, v) :: rest, key => if k == key then some v else dictLookup rest key

/-- Python `key in dict`. -/
def dictMem {α : Type} (d : List (String × α)) (k : String) : Bool :=
  (dictLookup d k).isSome

/-- Python `dict[key] = value`: replace in place if the key exists (keeping
its insertion position), otherwise append at the end. -/
def dictSet {α : Type} : List (String × α) → String → α → List (String × α)
  | [], key, v => [(key, v)]
  | (k, v') :: rest, key, v =>
    if k == key then (k, v) :: rest else (k, v') :: dictSet rest key v

/-- Python `del dict[key]`: remove the (unique) entry with the given key. -/
def dictErase {α : Type} (d : List (String × α)) (k : String) : List (String × α) :=
  d.eraseP (fun pr => pr.1 == k)

/-- The state of a `BacklogManager`: the in-memory `projects` dictionary and
the persisted per-project YAML documents (`files`).  A document is the
ordered list of item records produced by `asdict`, which copies every field
verbatim; YAML serialization round-trips those scalar fields, so a document
is modelled as the record list itself. -/
structure Store where
  projects : List (String × List BacklogItem)
  files : List (String × List BacklogItem)
deriving DecidableEq

/-- A manager over a fresh storage directory: no projects, no files. -/
def initStore : Store := { projects := [], files := [] }

/-- Model of `save_project`: overwrite the project's document with the full
ordered item list; a no-op when the project is not in memory. -/
def save_project (s : Store) (p : String) : Store :=
  match dictLookup s.projects p with
  | none => s
  | some items => { s with files := dictSet s.files p items }

/-- Reconstructing one item from a saved record: `BacklogItem(**item)` runs
`__post_init__` at load time. -/
def loadItem (rec : BacklogItem) (now : String) : BacklogItem :=
  mkBacklogItem rec.id rec.title rec.description rec.priority rec.status rec.sprint rec.epic
    rec.assignee rec.story_points (some rec.created_at) now

/-- Model of `load_projects` over a set of saved documents, at load time
`now`: each record list is mapped through the dataclass constructor. -/
def load_projects (files : List (String × List BacklogItem)) (now : String) :
    List (String × List BacklogItem) :=
  files.map (fun pr => (pr.1, pr.2.map (fun rec => loadItem rec now)))

/-- Constructing a fresh `BacklogManager` over the same storage directory:
the in-memory projects are rebuilt from the persisted documents. -/
def reloadStore (s : Store) (now : String) : Store :=
  { projects := load_projects s.files now, files := s.files }

/-- Model of `create_project`. -/
def create_project (s : Store) (p : String) : Bool × Store :=
  if dictMem s.projects p then (false, s)
  else
    let s' := { s with projects := s.projects ++ [(p, [])] }
    (true, save_project s' p)

/-- Model of `delete_project`; `confirm` is the user's answer to
`Confirm.ask`. -/
def delete_project (s : Store) (p : String) (confirm : Bool) : Bool × Store :=
  if dictMem s.projects p then
    if confirm then
      (true, { projects := dictErase s.projects p, files := dictErase s.files p })
    else (false, s)
  else (false, s)

/-- Model of `generate_item_id`: counter starts at `len(existing_ids) + 1`
and is incremented while `f"{NAME_UPPER}-{counter}"` collides with an
existing id.  The fuel `ids.length + 1` is enough for the Python `while`
loop to have terminated (at most `ids.length` candidates can collide). -/
def generate_item_id (s : Store) (p : String) : String :=
  match dictLookup s.projects p with
  | none => pyUpper p ++ "-1"
  | some items =>
    let ids := items.map (fun it => it.id)
    (pyUpper p ++ "-") ++
      natRepr (findCounter ids (pyUpper p ++ "-") (ids.length + 1) (ids.length + 1))

/-- Model of `add_item`: allocate an id, construct the item with status
`"todo"` and fresh timestamps, append it, and persist. -/
def add_item (s : Store) (p title description priority : String)
    (sprint epic assignee : Option String) (story_points : Option Int) (now : String) :
    Bool × Store :=
  match dictLookup s.projects p with
  | none => (false, s)
  | some items =>
    let item_id := generate_item_id s p
    let item := mkBacklogItem item_id title description priority "todo" sprint epic assignee
      story_points none now
    let s' := { s with projects := dictSet s.projects p (items ++ [item]) }
    (true, save_project s' p)

/-- The keyword arguments of `update_item(project, id, **kwargs)`.  One
optional slot per attribute of the dataclass (Python `hasattr` succeeds for
every declared field, including `id`, `created_at` and `updated_at`);
`none` models both an absent key and a key given as `None`, which the code
treats identically.  `unknown` holds keys that are not attributes of
`BacklogItem`; `hasattr` fails for them and they are ignored. -/
structure UpdateKwargs where
  id : Option String := none
  title : Option String := none
  description : Option String := none
  priority : Option String := none
  status : Option String := none
  sprint : Option String := none
  epic : Option String := none
  assignee : Option String := none
  story_points : Option Int := none
  created_at : Option String := none
  updated_at : Option String := none
  unknown : List (String × String) := []
deriving DecidableEq

/-- The `setattr` loop of `update_item`: every kwarg that names a declared
attribute and is not `None` overwrites that attribute; unknown keys are
skipped. -/
def applyKwargs (it : BacklogItem) (kw : UpdateKwargs) : BacklogItem :=
  { id := kw.id.getD it.id,
    title := kw.title.getD it.title,
    description := kw.description.getD it.description,
    priority := kw.priority.getD it.priority,
    status := kw.status.getD it.status,
    sprint := match kw.sprint with | some v => some v | none => it.sprint,
    epic := match kw.epic with | some v => some v | none => it.epic,
    assignee := match kw.assignee with | some v => some v | none => it.assignee,
    story_points := match kw.story_points with | some v => some v | none => it.story_points,
    created_at := kw.created_at.getD it.created_at,
    updated_at := kw.updated_at.getD it.updated_at }

/-- Apply `f` to the first item whose id matches, leaving the rest alone;
this is the `for item in ...: if item.id == item_id:` pattern of the
source. -/
def updateFirst (item_id : String) (f : BacklogItem → BacklogItem) :
    List BacklogItem → List BacklogItem
  | [] => []
  | it :: rest =>
    if it.id == item_id then f it :: rest else it :: updateFirst item_id f rest

/-- Model of `update_item`: on the first item whose id matches, apply the
kwargs, then unconditionally refresh `updated_at`, then persist. -/
def update_item (s : Store) (p item_id : String) (kw : UpdateKwargs) (now : String) :
    Bool × Store :=
  match dictLookup s.projects p with
  | none => (false, s)
  | some items =>
    if items.any (fun it => it.id == item_id) then
      let items' := updateFirst item_id
        (fun it => { applyKwargs it kw with updated_at := now }) items
      let s' := { s with projects := dictSet s.projects p items' }
      (true, save_project s' p)
    else (false, s)

/-- Model of `delete_item`: at the first matching item the user is asked to
confirm; declining returns `False` with nothing changed, confirming removes
that item and persists. -/
def delete_item (s : Store) (p item_id : String) (confirm : Bool) : Bool × Store :=
  match dictLookup s.projects p with
  | none => (false, s)
  | some items =>
    if items.any (fun it => it.id == item_id) then
      if confirm then
        let items' := items.eraseP (fun it => it.id == item_id)
        let s' := { s with projects := dictSet s.projects p items' }
        (true, save_project s' p)
      else (false, s)
    else (false, s)

/-- Python truthiness of an optional string: `None` and `""` are falsy. -/
def truthy : Option String → Bool
  | none => false
  | some s => !(s == "")

/-- One `if <filter>: filtered_items = [... == <filter>]` step for a
plain-string field.  The filter applies only when the value is truthy. -/
def filterStr (get : BacklogItem → String) (flt : Option String)
    (items : List BacklogItem) : List BacklogItem :=
  match flt with
  | none => items
  | some v => if v == "" then items else items.filter (fun it => get it == v)

/-- The same filtering step for an optional-string field: Python compares
the supplied string against the field value, so `None` never matches. -/
def filterOptStr (get : BacklogItem → Option String) (flt : Option String)
    (items : List BacklogItem) : List BacklogItem :=
  match flt with
  | none => items
  | some v => if v == "" then items else items.filter (fun it => get it == some v)

/-- The per-project loop body of `list_items`: empty projects are skipped,
the four filters are applied in source order, and projects whose filtered
list is empty are skipped; the rest are rendered as one table each. -/
def projectTables (ps : List (String × List BacklogItem))
    (priority sprint epic status : Option String) : List (String × List BacklogItem) :=
  ps.filterMap (fun pr =>
    if pr.2.isEmpty then none
    else
      let f := filterStr (fun it => it.status) status
        (filterOptStr (fun it => it.epic) epic
          (filterOptStr (fun it => it.sprint) sprint
            (filterStr (fun it => it.priority) priority pr.2)))
      if f.isEmpty then none else some (pr.1, f))

/-- Model of `list_items`: `none` is the early error return for a truthy
project name that does not exist; otherwise the list of rendered tables.
A falsy project name (absent or empty) selects all projects. -/
def list_items (s : Store) (project_name priority sprint epic status : Option String) :
    Option (List (String × List BacklogItem)) :=
  match project_name with
  | some pn =>
    if pn == "" then some (projectTables s.projects priority sprint epic status)
    else
      match dictLookup s.projects pn with
      | none => none
      | some items => some (projectTables [(pn, items)] priority sprint epic status)
  | none => some (projectTables s.projects priority sprint epic status)

/-- The store-mutating operations reachable from the user interfaces, with
their non-deterministic inputs (timestamps, confirmations) made explicit. -/
inductive Op where
  | createProject (p : String)
  | addItem (p title description priority : String) (sprint epic assignee : Option String)
      (story_points : Option Int) (now : String)
  | updateItem (p item_id : String) (kw : UpdateKwargs) (now : String)
  | deleteItem (p item_id : String) (confirm : Bool)
  | deleteProject (p : String) (confirm : Bool)
  | reload (now : String)
deriving DecidableEq

/-- Effect of one operation on the store. -/
def applyOp (s : Store) : Op → Store
  | .createProject p => (create_project s p).2
  | .addItem p t d prio sp ep asg pts now => (add_item s p t d prio sp ep asg pts now).2
  | .updateItem p iid kw now => (update_item s p iid kw now).2
  | .deleteItem p iid confirm => (delete_item s p iid confirm).2
  | .deleteProject p confirm => (delete_project s p confirm).2
  | .reload now => reloadStore s now

/-- The store after a sequence of operations on a fresh storage directory. -/
def runOps (ops : List Op) : Store := ops.foldl applyOp initStore

theorem dictLookup_mem {α : Type} :
    ∀ (d : List (String × α)) (k : String) (v : α),
      dictLookup d k = some v → ∃ k', (k', v) ∈ d := by
  intro d
  induction d with
  | nil => intro k v h; simp [dictLookup] at h
  | cons pr rest ih =>
    intro k v h
    obtain ⟨k₁, v₁⟩ := pr
    rw [dictLookup] at h
    by_cases hk : (k₁ == k) = true
    · rw [if_pos hk] at h
      exact ⟨k₁, by simp [Option.some.injEq] at h; simp [h]⟩
    · rw [if_neg hk] at h
      obtain ⟨k', hk'⟩ := ih k v h
      exact ⟨k', List.mem_cons_of_mem _ hk'⟩

theorem mem_dictSet {α : Type} :
    ∀ (d : List (String × α)) (k : String) (v : α) (pr : String × α),
      pr ∈ dictSet d k v → pr ∈ d ∨ pr.2 = v := by
  intro d
  induction d with
  | nil => intro k v pr h; simp [dictSet] at h; simp [h]
  | cons hd rest ih =>
    intro k v pr h
    obtain ⟨k₁, v₁⟩ := hd
    rw [dictSet] at h
    by_cases hk : (k₁ == k) = true
    · rw [if_pos hk] at h
      rcases List.mem_cons.mp h with rfl | hmem
      · right; rfl
      · left; exact List.mem_cons_of_mem _ hmem
    · rw [if_neg hk] at h
      rcases List.mem_cons.mp h with rfl | hmem
      · left; exact List.mem_cons_self _ _
      · rcases ih k v pr hmem with h1 | h2
        · left; exact List.mem_cons_of_mem _ h1
        · right; exact h2

/-- Item ids are pairwise distinct in every project of a dictionary. -/
def GoodDict (d : List (String × List BacklogItem)) : Prop :=
  ∀ pr ∈ d, (pr.2.map (fun it => it.id)).Nodup

/-- Item ids are pairwise distinct in every in-memory project and in every
persisted document. -/
def GoodStore (s : Store) : Prop := GoodDict s.projects ∧ GoodDict s.files

theorem goodDict_dictSet (d : List (String × List BacklogItem)) (k : String)
    (v : List BacklogItem) (hd : GoodDict d) (hv : (v.map (fun it => it.id)).Nodup) :
    GoodDict (dictSet d k v) := by
  intro pr hpr
  rcases mem_dictSet d k v pr hpr with hmem | hval
  · exact hd pr hmem
  · rw [hval]; exact hv

theorem goodDict_lookup (d : List (String × List BacklogItem)) (k : String)
    (v : List BacklogItem) (hd : GoodDict d) (h : dictLookup d k = some v) :
    (v.map (fun it => it.id)).Nodup := by
  obtain ⟨k', hk'⟩ := dictLookup_mem d k v h
  exact hd (k', v) hk'

theorem goodStore_save (s : Store) (p : String) (h : GoodStore s) :
    GoodStore (save_project s p) := by
  unfold save_project
  cases hl : dictLookup s.projects p with
  | none => exact h
  | some items =>
    refine ⟨h.1, ?_⟩
    exact goodDict_dictSet s.files p items h.2 (goodDict_lookup s.projects p items h.1 hl)

theorem generate_item_id_not_mem (s : Store) (p : String) (items : List BacklogItem)
    (h : dictLookup s.projects p = some items) :
    generate_item_id s p ∉ items.map (fun it => it.id) := by
  unfold generate_item_id
  rw [h]
  exact findCounter_result_free (items.map (fun it => it.id)) (pyUpper p ++ "-") _

theorem map_id_updateFirst (item_id : String) (f : BacklogItem → BacklogItem)
    (hf : ∀ it, (f it).id = it.id) :
    ∀ l : List BacklogItem,
      (updateFirst item_id f l).map (fun it => it.id) = l.map (fun it => it.id) := by
  intro l
  induction l with
  | nil => rfl
  | cons it rest ih =>
    rw [updateFirst]
    by_cases hid : (it.id == item_id) = true
    · rw [if_pos hid]
      simp [hf it]
    · rw [if_neg hid]
      simp [ih]

/-- Whether an operation leaves every item's `id` attribute alone: every
operation except an `update` whose kwargs name the `id` field. -/
def Op.idUntouched : Op → Bool
  | .updateItem _ _ kw _ => kw.id == none
  | _ => true

theorem goodStore_applyOp (s : Store) (op : Op) (h : GoodStore s)
    (hop : op.idUntouched = true) : GoodStore (applyOp s op) := by
  cases op with
  | createProject p =>
    show GoodStore (create_project s p).2
    by_cases hm : dictMem s.projects p = true
    · simpa [create_project, hm] using h
    · simp only [create_project, hm, Bool.false_eq_true, if_false]
      apply goodStore_save
      refine ⟨?_, h.2⟩
      intro pr hpr
      rcases List.mem_append.mp hpr with hmem | hnew
      · exact h.1 pr hmem
      · simp at hnew
        simp [hnew]
  | addItem p t d prio sp ep asg pts now =>
    show GoodStore (add_item s p t d prio sp ep asg pts now).2
    cases hl : dictLookup s.projects p with
    | none => simpa [add_item, hl] using h
    | some items =>
      simp only [add_item, hl]
      apply goodStore_save
      refine ⟨?_, h.2⟩
      apply goodDict_dictSet _ _ _ h.1
      have hnodup := goodDict_lookup s.projects p items h.1 hl
      have hfresh := generate_item_id_not_mem s p items hl
      have hid : (mkBacklogItem (generate_item_id s p) t d prio "todo" sp ep asg pts
          none now).id = generate_item_id s p := rfl
      simp [List.nodup_append, hnodup, hid, hfresh]
  | updateItem p iid kw now =>
    show GoodStore (update_item s p iid kw now).2
    cases hl : dictLookup s.projects p with
    | none => simpa [update_item, hl] using h
    | some items =>
      by_cases hany : (items.any (fun it => it.id == iid)) = true
      · simp only [update_item, hl, hany, if_true]
        apply goodStore_save
        refine ⟨?_, h.2⟩
        apply goodDict_dictSet _ _ _ h.1
        have hkw : kw.id = none := by
          simpa [Op.idUntouched] using hop
        rw [map_id_updateFirst iid _ (fun it => by simp [applyKwargs, hkw])]
        exact goodDict_lookup s.projects p items h.1 hl
      · simpa [update_item, hl, hany] using h
  | deleteItem p iid confirm =>
    show GoodStore (delete_item s p iid confirm).2
    cases hl : dictLookup s.projects p with
    | none => simpa [delete_item, hl] using h
    | some items =>
      by_cases hany : (items.any (fun it => it.id == iid)) = true
      · cases confirm with
        | false => simpa [delete_item, hl, hany] using h
        | true =>
          simp only [delete_item, hl, hany, if_true]
          apply goodStore_save
          refine ⟨?_, h.2⟩
          apply goodDict_dictSet _ _ _ h.1
          have hsub : (items.eraseP (fun it => it.id == iid)).Sublist items :=
            List.eraseP_sublist items
          have := goodDict_lookup s.projects p items h.1 hl
          exact this.sublist (hsub.map (fun it => it.id))
      · simpa [delete_item, hl, hany] using h
  | deleteProject p confirm =>
    show GoodStore (delete_project s p confirm).2
    by_cases hm : dictMem s.projects p = true
    · cases confirm with
      | false => simpa [delete_project, hm] using h
      | true =>
        simp only [delete_project, hm, if_true]
        refine ⟨?_, ?_⟩
        · intro pr hpr
          exact h.1 pr ((List.eraseP_sublist s.projects).mem hpr)
        · intro pr hpr
          exact h.2 pr ((List.eraseP_sublist s.files).mem hpr)
    · simpa [delete_project, hm] using h
  | reload now =>
    show GoodStore (reloadStore s now)
    refine ⟨?_, h.2⟩
    intro pr hpr
    rw [reloadStore] at hpr
    simp only [load_projects, List.mem_map] at hpr
    obtain ⟨pr₀, hpr₀, rfl⟩ := hpr
    have hload : ∀ rec : BacklogItem, (loadItem rec now).id = rec.id := fun rec => rfl
    simp only [List.map_map]
    have : ((fun it => it.id) ∘ fun rec => loadItem rec now) = (fun it : BacklogItem => it.id) := by
      funext rec
      exact hload rec
    rw [this]
    exact h.2 pr₀ hpr₀

theorem goodStore_foldl (ops : List Op) :
    ∀ s : Store, GoodStore s → (∀ op ∈ ops, op.idUntouched = true) →
      GoodStore (ops.foldl applyOp s) := by
  induction ops with
  | nil => intro s hs _; exact hs
  | cons op rest ih =>
    intro s hs hops
    rw [List.foldl_cons]
    exact ih (applyOp s op) (goodStore_applyOp s op hs (hops op (List.mem_cons_self _ _)))
      (fun o ho => hops o (List.mem_cons_of_mem _ ho))

theorem goodStore_runOps (ops : List Op) (h : ∀ op ∈ ops, op.idUntouched = true) :
    GoodStore (runOps ops) := by
  apply goodStore_foldl ops initStore _ h
  constructor <;> intro pr hpr <;> simp [initStore] at hpr

/-- A sample fully-populated item record, used for concrete stores in
counterexamples and witnesses. -/
def mkSample (iid title : String) : BacklogItem :=
  { id := iid, title := title, description := "d", priority := "medium", status := "todo",
    sprint := none, epic := none, assignee := none, story_points := none,
    created_at := "t0", updated_at := "t0" }

/-- The reachable state used to refute claim C2: a project with items
`P-1` and `P-2`. -/
def c2BaseOps : List Op := [.createProject "p",
  .addItem "p" "a" "da" "medium" none none none none "t1",
  .addItem "p" "b" "db" "medium" none none none none "t2"]

/-- An update request whose kwargs name the declared attribute `id` with a
non-null value, as `update_item(p, "P-1", id="P-2")` would. -/
def c2Kw : UpdateKwargs := { id := some "P-2" }

/-- Claim C2 is false as stated: `id` is itself a known (declared) field of
the item dataclass, so an `update_item` call whose non-null fields include
`id` can overwrite one item's identifier with another's.  Starting from the
reachable state with items `P-1, P-2`, updating item `P-1` with `id="P-2"`
succeeds and leaves the project with the duplicate identifier list
`["P-2", "P-2"]`. -/
theorem C2_counterexample :
    ((dictLookup (runOps c2BaseOps).projects "p").getD []).map (fun it => it.id) =
      ["P-1", "P-2"] ∧
    (update_item (runOps c2BaseOps) "p" "P-1" c2Kw "t3").1 = true ∧
    ((dictLookup (update_item (runOps c2BaseOps) "p" "P-1" c2Kw "t3").2.projects
        "p").getD []).map (fun it => it.id) = ["P-2", "P-2"] ∧
    ¬ (((dictLookup (update_item (runOps c2BaseOps) "p" "P-1" c2Kw "t3").2.projects
        "p").getD []).map (fun it => it.id)).Nodup :=
  ⟨by decide, by decide, by decide, by decide⟩

/-- C2 (amended): for every store reachable from a fresh storage directory
by create/add/update/delete/reload operations, provided no update request
names the `id` field, the item identifiers within each project remain
pairwise distinct after every operation. -/
theorem C2_ids_distinct (ops : List Op) (h : ∀ op ∈ ops, op.idUntouched = true)
    (p : String) :
    (((dictLookup (runOps ops).projects p).getD []).map (fun it => it.id)).Nodup := by
  have hg := goodStore_runOps ops h
  cases hl : dictLookup (runOps ops).projects p with
  | none => simp
  | some items =>
    simpa using goodDict_lookup (runOps ops).projects p items hg.1 hl

/-- A concrete operation sequence exercising every operation kind without
touching any `id` field. -/
def c2WitnessOps : List Op := [.createProject "p",
  .addItem "p" "a" "da" "medium" none none none none "t1",
  .addItem "p" "b" "db" "high" (some "s1") none none (some 3) "t2",
  .updateItem "p" "P-1" { title := some "a2", status := some "done" } "t3",
  .deleteItem "p" "P-2" true,
  .addItem "p" "c" "dc" "low" none none none none "t4",
  .reload "t5"]

theorem C2_ids_distinct_witness :
    (((dictLookup (runOps c2WitnessOps).projects "p").getD []).map (fun it => it.id)).Nodup :=
  C2_ids_distinct c2WitnessOps (by decide) "p"

/-- Operations producing items `P-1`, `P-2`, `P-3` in a fresh project. -/
def c3OpsBefore : List Op := [.createProject "p",
  .addItem "p" "a" "da" "medium" none none none none "t1",
  .addItem "p" "b" "db" "medium" none none none none "t2",
  .addItem "p" "c" "dc" "medium" none none none none "t3"]

/-- The same operations followed by deleting item `P-3` (confirmed) and
adding one more item. -/
def c3OpsAfter : List Op := c3OpsBefore ++
  [.deleteItem "p" "P-3" true, .addItem "p" "e" "de" "medium" none none none none "t4"]

/-- Claim C3 is false: identifiers of deleted items can be reused within
one load session.  After adding items `P-1, P-2, P-3` (with `P-3` titled
`"c"`), deleting `P-3`, and adding another item, the counter restarts at
`count + 1 = 3` and finds no collision, so the new item (titled `"e"`) is
assigned the previously-used identifier `P-3` again. -/
theorem C3_counterexample :
    ((dictLookup (runOps c3OpsBefore).projects "p").getD []).map (fun it => (it.id, it.title)) =
      [("P-1", "a"), ("P-2", "b"), ("P-3", "c")] ∧
    (delete_item (runOps c3OpsBefore) "p" "P-3" true).1 = true ∧
    ((dictLookup (runOps c3OpsAfter).projects "p").getD []).map (fun it => (it.id, it.title)) =
      [("P-1", "a"), ("P-2", "b"), ("P-3", "e")] :=
  ⟨by decide, by decide, by decide⟩

/-- C3 (amended): an identifier of a deleted item can be assigned again to
a newly added item (the generator only scans the identifiers currently
present); what holds is that the generated identifier always differs from
every identifier currently in the project. -/
theorem C3_fresh_among_current (s : Store) (p : String) (items : List BacklogItem)
    (h : dictLookup s.projects p = some items) :
    ∀ it ∈ items, generate_item_id s p ≠ it.id := by
  intro it hit heq
  have hnm := generate_item_id_not_mem s p items h
  exact hnm (heq ▸ List.mem_map_of_mem (fun x => x.id) hit)

/-- A concrete store with current items `P-1` and `P-2`. -/
def c3Store : Store :=
  { projects := [("p", [mkSample "P-1" "a", mkSample "P-2" "b"])], files := [] }

theorem C3_fresh_among_current_witness :
    generate_item_id c3Store "p" ≠ "P-1" ∧ generate_item_id c3Store "p" ≠ "P-2" :=
  ⟨C3_fresh_among_current c3Store "p" [mkSample "P-1" "a", mkSample "P-2" "b"] rfl
      (mkSample "P-1" "a") (by simp),
   C3_fresh_among_current c3Store "p" [mkSample "P-1" "a", mkSample "P-2" "b"] rfl
      (mkSample "P-2" "b") (by simp)⟩

/-- C4: for every existing project, `generate_item_id` returns
`<NAME_UPPER>-<counter>` where the counter starts at `count(items) + 1` and
is incremented exactly past the counters whose candidate string collides
with a current identifier; the returned identifier is never among the
project's current identifiers. -/
theorem C4_generate_item_id (s : Store) (p : String) (items : List BacklogItem)
    (h : dictLookup s.projects p = some items) :
    ∃ c, generate_item_id s p = (pyUpper p ++ "-") ++ natRepr c ∧
      items.length + 1 ≤ c ∧
      (∀ k, items.length + 1 ≤ k → k < c →
        ((pyUpper p ++ "-") ++ natRepr k) ∈ items.map (fun it => it.id)) ∧
      ((pyUpper p ++ "-") ++ natRepr c) ∉ items.map (fun it => it.id) := by
  have hlen : (items.map (fun it => it.id)).length = items.length := by simp
  refine ⟨findCounter (items.map (fun it => it.id)) (pyUpper p ++ "-")
      (items.length + 1) (items.length + 1), ?_, ?_, ?_, ?_⟩
  · simp only [generate_item_id, h]
    rw [hlen]
  · exact findCounter_ge _ _ _ _
  · intro k hk1 hk2
    have hc := findCounter_collides_below (items.map (fun it => it.id)) (pyUpper p ++ "-")
      (items.length + 1) (items.length + 1) k hk1 hk2
    simpa using hc
  · rw [← hlen]
    exact findCounter_result_free _ _ _

/-- The claim's worked example: a project whose current items are `P-1` and
`P-3` (as after deleting `P-2` from `P-1, P-2, P-3`). -/
def c4Store : Store :=
  { projects := [("p", [mkSample "P-1" "a", mkSample "P-3" "c"])], files := [] }

theorem C4_generate_item_id_witness :
    (∃ c, generate_item_id c4Store "p" = (pyUpper "p" ++ "-") ++ natRepr c ∧
      2 + 1 ≤ c ∧
      (∀ k, 2 + 1 ≤ k → k < c →
        ((pyUpper "p" ++ "-") ++ natRepr k) ∈
          ([mkSample "P-1" "a", mkSample "P-3" "c"] : List BacklogItem).map (fun it => it.id)) ∧
      ((pyUpper "p" ++ "-") ++ natRepr c) ∉
        ([mkSample "P-1" "a", mkSample "P-3" "c"] : List BacklogItem).map (fun it => it.id)) ∧
    generate_item_id c4Store "p" = "P-4" :=
  ⟨C4_generate_item_id c4Store "p" [mkSample "P-1" "a", mkSample "P-3" "c"] rfl, by decide⟩

theorem save_project_projects (s : Store) (p : String) :
    (save_project s p).projects = s.projects := by
  cases hl : dictLookup s.projects p with
  | none => simp [save_project, hl]
  | some items => simp [save_project, hl]

theorem dictLookup_dictSet_self {α : Type} :
    ∀ (d : List (String × α)) (k : String) (v : α), dictLookup (dictSet d k v) k = some v := by
  intro d
  induction d with
  | nil => intro k v; simp [dictSet, dictLookup]
  | cons hd rest ih =>
    intro k v
    obtain ⟨k₁, v₁⟩ := hd
    rw [dictSet]
    by_cases hk : (k₁ == k) = true
    · rw [if_pos hk, dictLookup, if_pos hk]
    · rw [if_neg hk, dictLookup, if_neg hk]
      exact ih k v

theorem dictLookup_eq_none_of_not_mem {α : Type} :
    ∀ (d : List (String × α)) (k : String), k ∉ d.map Prod.fst → dictLookup d k = none := by
  intro d
  induction d with
  | nil => intro k _; rfl
  | cons hd rest ih =>
    intro k hk
    obtain ⟨k₁, v₁⟩ := hd
    rw [dictLookup]
    have hne : (k₁ == k) ≠ true := by
      intro hbeq
      apply hk
      have : k₁ = k := by simpa using hbeq
      simp [this]
    rw [if_neg hne]
    apply ih
    intro hmem
    exact hk (List.mem_cons_of_mem _ hmem)

theorem dictLookup_dictErase_self {α : Type} :
    ∀ (d : List (String × α)) (k : String), (d.map Prod.fst).Nodup →
      dictLookup (dictErase d k) k = none := by
  intro d
  induction d with
  | nil => intro k _; rfl
  | cons hd rest ih =>
    intro k hnd
    obtain ⟨k₁, v₁⟩ := hd
    rw [dictErase, List.eraseP_cons]
    by_cases hk : (k₁ == k) = true
    · simp only [hk, if_true]
      apply dictLookup_eq_none_of_not_mem
      have heq : k₁ = k := by simpa using hk
      have hnd' : (k₁ :: rest.map Prod.fst).Nodup := by simpa using hnd
      rw [← heq]
      exact (List.nodup_cons.mp hnd').1
    · simp only [hk, Bool.false_eq_true, if_false]
      simp only [dictLookup]
      rw [if_neg hk]
      have hnd' : (k₁ :: rest.map Prod.fst).Nodup := by simpa using hnd
      exact ih k (List.nodup_cons.mp hnd').2

/-- Operations building a store with one project and one item, added at
time `2024-01-01T10:00:00`. -/
def c1Ops : List Op := [.createProject "p",
  .addItem "p" "Login" "OAuth flow" "medium" none none none none "2024-01-01T10:00:00"]

/-- C1: the claim states save-then-reload is per-field identical, including
`updated_at`; the spec intends this (it guards `created_at` against being
clobbered on reconstruction) but `__post_init__` unconditionally overwrites
`updated_at` with the construction time, so every reload rewrites it to the
load time.  At the failing input below, every field except `updated_at`
round-trips, and `updated_at` becomes the reload time `2024-01-02T10:00:00`
instead of the saved `2024-01-01T10:00:00`. -/
theorem C1_roundtrip_updated_at_bug :
    ((dictLookup (runOps c1Ops).projects "p").getD []).map (fun it => it.updated_at) =
      ["2024-01-01T10:00:00"] ∧
    ((dictLookup (reloadStore (runOps c1Ops) "2024-01-02T10:00:00").projects "p").getD
        []).map (fun it => it.updated_at) = ["2024-01-02T10:00:00"] ∧
    (dictLookup (reloadStore (runOps c1Ops) "2024-01-02T10:00:00").projects "p").getD [] ≠
      (dictLookup (runOps c1Ops).projects "p").getD [] ∧
    ((dictLookup (reloadStore (runOps c1Ops) "2024-01-02T10:00:00").projects "p").getD
        []).map (fun it => (it.id, it.title, it.description, it.priority, it.status,
          it.sprint, it.epic, it.assignee, it.story_points, it.created_at)) =
      ((dictLookup (runOps c1Ops).projects "p").getD []).map (fun it => (it.id, it.title,
        it.description, it.priority, it.status, it.sprint, it.epic, it.assignee,
        it.story_points, it.created_at)) :=
  ⟨by decide, by decide, by decide, rfl⟩

/-- Operations building a project with a single item created at `t1`. -/
def c6Ops : List Op := [.createProject "p",
  .addItem "p" "a" "da" "medium" none none none none "t1"]

/-- An update request naming `created_at` with a non-null value. -/
def c6Kw : UpdateKwargs := { created_at := some "1999-01-01T00:00:00" }

/-- Claim C6 is false as stated: `created_at` is itself a declared
attribute of the dataclass, so a request naming it with a non-null value
changes it; the unconditional clause that `created_at` keeps its previous
value is refuted by `update_item(p, "P-1", created_at="1999-...")`. -/
theorem C6_counterexample :
    ((dictLookup (runOps c6Ops).projects "p").getD []).map (fun it => it.created_at) =
      ["t1"] ∧
    (update_item (runOps c6Ops) "p" "P-1" c6Kw "t2").1 = true ∧
    ((dictLookup (update_item (runOps c6Ops) "p" "P-1" c6Kw "t2").2.projects "p").getD
        []).map (fun it => it.created_at) = ["1999-01-01T00:00:00"] :=
  ⟨by decide, by decide, by decide⟩

theorem updateFirst_append (item_id : String) (f : BacklogItem → BacklogItem) :
    ∀ (l₁ : List BacklogItem) (it : BacklogItem) (l₂ : List BacklogItem),
      (∀ x ∈ l₁, (x.id == item_id) = false) → (it.id == item_id) = true →
      updateFirst item_id f (l₁ ++ it :: l₂) = l₁ ++ f it :: l₂ := by
  intro l₁
  induction l₁ with
  | nil =>
    intro it l₂ _ hit
    simp only [List.nil_append, updateFirst, hit, if_true]
  | cons x rest ih =>
    intro it l₂ hbefore hit
    have hx : (x.id == item_id) = false := hbefore x (List.mem_cons_self _ _)
    simp only [List.cons_append, updateFirst, hx, Bool.false_eq_true, if_false]
    have hrec := ih it l₂ (fun y hy => hbefore y (List.mem_cons_of_mem _ hy)) hit
    simpa using hrec

/-- C6 (amended): for every successful `update_item` call whose request
does not name `created_at`, only the non-null fields named in the request
change, unknown field names are ignored (they have no effect on the
result), `updated_at` is refreshed, and `created_at` and every field not
named keep their previous values; all other items are untouched. -/
theorem C6_update_frame (s : Store) (p item_id : String) (kw : UpdateKwargs) (now : String)
    (items : List BacklogItem) (hl : dictLookup s.projects p = some items)
    (l₁ l₂ : List BacklogItem) (it : BacklogItem)
    (hsplit : items = l₁ ++ it :: l₂)
    (hbefore : ∀ x ∈ l₁, (x.id == item_id) = false)
    (hit : (it.id == item_id) = true)
    (hca : kw.created_at = none) :
    (update_item s p item_id kw now).1 = true ∧
    ∃ it', dictLookup (update_item s p item_id kw now).2.projects p =
        some (l₁ ++ it' :: l₂) ∧
      it'.created_at = it.created_at ∧
      it'.updated_at = now ∧
      it'.id = kw.id.getD it.id ∧
      it'.title = kw.title.getD it.title ∧
      it'.description = kw.description.getD it.description ∧
      it'.priority = kw.priority.getD it.priority ∧
      it'.status = kw.status.getD it.status ∧
      it'.sprint = (match kw.sprint with | some v => some v | none => it.sprint) ∧
      it'.epic = (match kw.epic with | some v => some v | none => it.epic) ∧
      it'.assignee = (match kw.assignee with | some v => some v | none => it.assignee) ∧
      it'.story_points =
        (match kw.story_points with | some v => some v | none => it.story_points) ∧
      (∀ u : List (String × String),
        update_item s p item_id { kw with unknown := u } now =
          update_item s p item_id kw now) := by
  have hany : (items.any (fun x => x.id == item_id)) = true := by
    rw [List.any_eq_true]
    exact ⟨it, by rw [hsplit]; exact List.mem_append_right _ (List.mem_cons_self _ _), hit⟩
  constructor
  · simp [update_item, hl, hany]
  · refine ⟨{ applyKwargs it kw with updated_at := now }, ?_, ?_, rfl, ?_, ?_, ?_, ?_, ?_,
      rfl, rfl, rfl, rfl, fun u => rfl⟩
    · simp only [update_item, hl, hany, if_true]
      rw [save_project_projects]
      show dictLookup (dictSet s.projects p _) p = _
      rw [dictLookup_dictSet_self, hsplit,
        updateFirst_append item_id _ l₁ it l₂ hbefore hit]
    · show (applyKwargs it kw).created_at = it.created_at
      simp [applyKwargs, hca]
    · show (applyKwargs it kw).id = kw.id.getD it.id
      rfl
    · rfl
    · rfl
    · rfl
    · rfl

/-- A two-item store for exercising the update frame conditions. -/
def c6WitStore : Store :=
  { projects := [("p", [mkSample "P-1" "a", mkSample "P-2" "b"])], files := [] }

/-- A request setting `status` and carrying an unknown key. -/
def c6WitKw : UpdateKwargs := { status := some "done", unknown := [("flavor", "x")] }

theorem C6_update_frame_witness :
    (update_item c6WitStore "p" "P-2" c6WitKw "t9").1 = true ∧
    ∃ it', dictLookup (update_item c6WitStore "p" "P-2" c6WitKw "t9").2.projects "p" =
        some ([mkSample "P-1" "a"] ++ it' :: []) ∧
      it'.created_at = "t0" ∧
      it'.updated_at = "t9" ∧
      it'.id = "P-2" ∧
      it'.title = "b" ∧
      it'.description = "d" ∧
      it'.priority = "medium" ∧
      it'.status = "done" ∧
      it'.sprint = (none : Option String) ∧
      it'.epic = (none : Option String) ∧
      it'.assignee = (none : Option String) ∧
      it'.story_points = (none : Option Int) ∧
      (∀ u : List (String × String),
        update_item c6WitStore "p" "P-2" { c6WitKw with unknown := u } "t9" =
          update_item c6WitStore "p" "P-2" c6WitKw "t9") :=
  C6_update_frame c6WitStore "p" "P-2" c6WitKw "t9"
    [mkSample "P-1" "a", mkSample "P-2" "b"] rfl
    [mkSample "P-1" "a"] [] (mkSample "P-2" "b") rfl (by decide) (by decide) rfl

/-- C7: on an existing target, deletion takes effect only after an
affirmative confirmation; a declined confirmation returns failure and
leaves the entire store (in-memory projects and persisted documents)
exactly as before, for both `delete_item` and `delete_project`. -/
theorem C7_confirmation (s : Store) (p item_id : String) (items : List BacklogItem)
    (hl : dictLookup s.projects p = some items)
    (hex : (items.any (fun it => it.id == item_id)) = true)
    (hkp : (s.projects.map Prod.fst).Nodup) (hkf : (s.files.map Prod.fst).Nodup) :
    delete_item s p item_id false = (false, s) ∧
    (delete_item s p item_id true).1 = true ∧
    dictLookup (delete_item s p item_id true).2.projects p =
      some (items.eraseP (fun it => it.id == item_id)) ∧
    delete_project s p false = (false, s) ∧
    (delete_project s p true).1 = true ∧
    dictLookup (delete_project s p true).2.projects p = none ∧
    dictLookup (delete_project s p true).2.files p = none := by
  have hm : dictMem s.projects p = true := by simp [dictMem, hl]
  refine ⟨?_, ?_, ?_, ?_, ?_, ?_, ?_⟩
  · simp [delete_item, hl, hex]
  · simp [delete_item, hl, hex]
  · simp only [delete_item, hl, hex, if_true]
    rw [save_project_projects]
    exact dictLookup_dictSet_self s.projects p _
  · simp [delete_project, hm]
  · simp [delete_project, hm]
  · simp only [delete_project, hm, if_true]
    exact dictLookup_dictErase_self s.projects p hkp
  · simp only [delete_project, hm, if_true]
    exact dictLookup_dictErase_self s.files p hkf

/-- A one-project store whose document has been saved. -/
def c7Store : Store :=
  { projects := [("p", [mkSample "P-1" "a"])], files := [("p", [mkSample "P-1" "a"])] }

theorem C7_confirmation_witness :
    delete_item c7Store "p" "P-1" false = (false, c7Store) ∧
    (delete_item c7Store "p" "P-1" true).1 = true ∧
    dictLookup (delete_item c7Store "p" "P-1" true).2.projects "p" = some [] ∧
    delete_project c7Store "p" false = (false, c7Store) ∧
    (delete_project c7Store "p" true).1 = true ∧
    dictLookup (delete_project c7Store "p" true).2.projects "p" = none ∧
    dictLookup (delete_project c7Store "p" true).2.files "p" = none :=
  C7_confirmation c7Store "p" "P-1" [mkSample "P-1" "a"] rfl (by decide) (by decide)
    (by decide)

/-- The claim's per-item predicate: the item's fields equal every supplied
filter value (logical AND of equality predicates). -/
def matchesFilters (priority sprint epic status : Option String) (it : BacklogItem) : Bool :=
  (match priority with | none => true | some v => it.priority == v) &&
  (match sprint with | none => true | some v => it.sprint == some v) &&
  (match epic with | none => true | some v => it.epic == some v) &&
  (match status with | none => true | some v => it.status == v)

/-- The result of `listItems` as the claim describes it (a second
definition written from the claim's words, to be compared with the source
model `list_items`): exactly the items of the selected project, or of all
projects when none is named, that match every supplied filter; projects
whose filtered list is empty are omitted entirely. -/
def listItemsClaim (s : Store) (project_name priority sprint epic status : Option String) :
    List (String × List BacklogItem) :=
  let sel := match project_name with
    | none => s.projects
    | some pn =>
      match dictLookup s.projects pn with
      | some items => [(pn, items)]
      | none => []
  sel.filterMap (fun pr =>
    let f := pr.2.filter (matchesFilters priority sprint epic status)
    if f.isEmpty then none else some (pr.1, f))

theorem filterStr_eq_filter (get : BacklogItem → String) (flt : Option String)
    (h : ∀ v, flt = some v → v ≠ "") (items : List BacklogItem) :
    filterStr get flt items =
      items.filter (fun it => match flt with | none => true | some v => get it == v) := by
  cases flt with
  | none => simp [filterStr]
  | some v =>
    have hne : v ≠ "" := h v rfl
    have hbeq : (v == "") = false := by simpa using hne
    simp [filterStr, hbeq]

theorem filterOptStr_eq_filter (get : BacklogItem → Option String) (flt : Option String)
    (h : ∀ v, flt = some v → v ≠ "") (items : List BacklogItem) :
    filterOptStr get flt items =
      items.filter (fun it => match flt with | none => true | some v => get it == some v) := by
  cases flt with
  | none => simp [filterOptStr]
  | some v =>
    have hne : v ≠ "" := h v rfl
    have hbeq : (v == "") = false := by simpa using hne
    simp [filterOptStr, hbeq]

theorem filters_eq_matches (priority sprint epic status : Option String)
    (hp : ∀ v, priority = some v → v ≠ "") (hs : ∀ v, sprint = some v → v ≠ "")
    (he : ∀ v, epic = some v → v ≠ "") (hst : ∀ v, status = some v → v ≠ "")
    (items : List BacklogItem) :
    filterStr (fun it => it.status) status
      (filterOptStr (fun it => it.epic) epic
        (filterOptStr (fun it => it.sprint) sprint
          (filterStr (fun it => it.priority) priority items))) =
      items.filter (matchesFilters priority sprint epic status) := by
  rw [filterStr_eq_filter _ _ hp, filterOptStr_eq_filter _ _ hs,
    filterOptStr_eq_filter _ _ he, filterStr_eq_filter _ _ hst,
    List.filter_filter, List.filter_filter, List.filter_filter]
  apply List.filter_congr
  intro a _
  simp only [matchesFilters]
  cases hq1 : (match priority with | none => true | some v => a.priority == v) <;>
    cases hq2 : (match sprint with | none => true | some v => a.sprint == some v) <;>
    cases hq3 : (match epic with | none => true | some v => a.epic == some v) <;>
    cases hq4 : (match status with | none => true | some v => a.status == v) <;>
    simp [hq1, hq2, hq3, hq4]

theorem projectTables_eq (priority sprint epic status : Option String)
    (hp : ∀ v, priority = some v → v ≠ "") (hs : ∀ v, sprint = some v → v ≠ "")
    (he : ∀ v, epic = some v → v ≠ "") (hst : ∀ v, status = some v → v ≠ "") :
    ∀ ps : List (String × List BacklogItem),
      projectTables ps priority sprint epic status =
        ps.filterMap (fun pr =>
          let f := pr.2.filter (matchesFilters priority sprint epic status)
          if f.isEmpty then none else some (pr.1, f)) := by
  intro ps
  unfold projectTables
  apply List.filterMap_congr
  intro pr _
  by_cases hempty : pr.2.isEmpty = true
  · have : pr.2 = [] := by simpa [List.isEmpty_iff] using hempty
    simp [this]
  · simp only [hempty, Bool.false_eq_true, if_false]
    rw [filters_eq_matches priority sprint epic status hp hs he hst]

/-- C5: with every supplied (truthy) filter value non-empty and any
supplied project name present, `list_items` produces exactly the items of
the selected project (or of all projects) whose fields equal every
supplied filter value, and any project whose filtered list is empty is
omitted from the result entirely; this is the claim-side `listItemsClaim`. -/
theorem C5_list_items_filters (s : Store)
    (project_name priority sprint epic status : Option String)
    (hproj : ∀ pn, project_name = some pn → pn ≠ "" ∧ dictMem s.projects pn = true)
    (hp : ∀ v, priority = some v → v ≠ "") (hs : ∀ v, sprint = some v → v ≠ "")
    (he : ∀ v, epic = some v → v ≠ "") (hst : ∀ v, status = some v → v ≠ "") :
    list_items s project_name priority sprint epic status =
      some (listItemsClaim s project_name priority sprint epic status) := by
  cases project_name with
  | none =>
    simp only [list_items, listItemsClaim]
    rw [projectTables_eq priority sprint epic status hp hs he hst]
  | some pn =>
    obtain ⟨hne, hmem⟩ := hproj pn rfl
    have hbeq : (pn == "") ≠ true := by simpa using hne
    cases hl : dictLookup s.projects pn with
    | none => rw [dictMem, hl] at hmem; simp at hmem
    | some items =>
      simp only [list_items, hl, if_neg hbeq, listItemsClaim]
      rw [projectTables_eq priority sprint epic status hp hs he hst]

/-- A base record for the C5 scenario. -/
def c5Item (iid title priority status : String) : BacklogItem :=
  { id := iid, title := title, description := "d", priority := priority, status := status,
    sprint := none, epic := none, assignee := none, story_points := none,
    created_at := "t0", updated_at := "t0" }

/-- Two projects: `web` has one item matching `priority=high, status=todo`
and one not; `api` has no matching item. -/
def c5Store : Store :=
  { projects := [("web", [c5Item "WEB-1" "Login" "high" "todo",
                          c5Item "WEB-2" "Logout" "low" "done"]),
                 ("api", [c5Item "API-1" "Rate limit" "medium" "todo"])],
    files := [] }

theorem C5_list_items_filters_witness :
    list_items c5Store none (some "high") none none (some "todo") =
      some (listItemsClaim c5Store none (some "high") none none (some "todo")) ∧
    list_items c5Store none (some "high") none none (some "todo") =
      some [("web", [c5Item "WEB-1" "Login" "high" "todo"])] :=
  ⟨C5_list_items_filters c5Store none (some "high") none none (some "todo")
      (fun pn h => nomatch h)
      (by intro v hv; cases hv; decide)
      (fun v hv => nomatch hv)
      (fun v hv => nomatch hv)
      (by intro v hv; cases hv; decide),
   by decide⟩

/-- C10: supplying an empty-string value for the priority, sprint, epic or
status filter of `list_items` behaves exactly as if that filter were not
supplied at all, for every store, project selection and combination of the
other filters (Python truthiness: `if priority:` is false for `""`). -/
theorem C10_empty_filter_ignored (s : Store)
    (project_name priority sprint epic status : Option String) :
    list_items s project_name (some "") sprint epic status =
      list_items s project_name none sprint epic status ∧
    list_items s project_name priority (some "") epic status =
      list_items s project_name priority none epic status ∧
    list_items s project_name priority sprint (some "") status =
      list_items s project_name priority sprint none status ∧
    list_items s project_name priority sprint epic (some "") =
      list_items s project_name priority sprint epic none :=
  ⟨rfl, rfl, rfl, rfl⟩

/-- Python `str.startswith`, modelled structurally on the character lists
so that it reduces by kernel computation. -/
def listBegins : List Char → List Char → Bool
  | _, [] => true
  | [], _ :: _ => false
  | c :: cs, d :: ds => c == d && listBegins cs ds

/-- Python `s.startswith(pre)`. -/
def strBegins (s pre : String) : Bool := listBegins s.data pre.data

/-- The scanning loop of `parse_filter_args`: at a `--key` token, pair it
with the next token unless that token is absent or itself starts with
`--` (then advance by one); other tokens are skipped.  The filters are a
Python dict, so duplicate keys overwrite in place (`dictSet`). -/
def parseFilterAux : List (String × String) → List String → List (String × String)
  | acc, [] => acc
  | acc, [_] => acc
  | acc, a :: b :: rest2 =>
    if strBegins a "--" then
      if strBegins b "--" then parseFilterAux acc (b :: rest2)
      else parseFilterAux (dictSet acc (a.drop 2) b) rest2
    else parseFilterAux acc (b :: rest2)

/-- Model of `parse_filter_args`. -/
def parse_filter_args (args : List String) : List (String × String) :=
  parseFilterAux [] args

/-- The claim's positional description: each token starting with `--`
whose immediately following token exists and does not itself start with
`--` contributes the pair (token without the leading dashes, following
token); all other tokens contribute nothing. -/
def claimFilterPairs (args : List String) : List (String × String) :=
  (List.range args.length).filterMap (fun i =>
    match args.get? i, args.get? (i + 1) with
    | some a, some b =>
      if strBegins a "--" && !(strBegins b "--") then some (a.drop 2, b) else none
    | _, _ => none)

/-- The pairs of `claimFilterPairs` accumulated into a dict in order. -/
def claimFilterDict (args : List String) : List (String × String) :=
  (claimFilterPairs args).foldl (fun acc pr => dictSet acc pr.1 pr.2) []

theorem claimFilterPairs_cons (a : String) (l : List String) :
    claimFilterPairs (a :: l) =
      (match l.head? with
       | some b =>
         if strBegins a "--" && !(strBegins b "--") then [(a.drop 2, b)] else []
       | none => []) ++ claimFilterPairs l := by
  unfold claimFilterPairs
  rw [List.length_cons, List.range_succ_eq_map, List.filterMap_cons, List.filterMap_map]
  have hshift : ((fun i =>
      match (a :: l).get? i, (a :: l).get? (i + 1) with
      | some x, some b =>
        if strBegins x "--" && !(strBegins b "--") then some (x.drop 2, b) else none
      | _, _ => none) ∘ Nat.succ) =
      (fun i =>
      match l.get? i, l.get? (i + 1) with
      | some x, some b =>
        if strBegins x "--" && !(strBegins b "--") then some (x.drop 2, b) else none
      | _, _ => none) := by
    funext i
    rfl
  rw [hshift]
  cases l with
  | nil => simp
  | cons b rest =>
    simp only [List.head?_cons]
    by_cases hcond : (strBegins a "--" && !(strBegins b "--")) = true
    · simp [List.get?_cons_zero, List.get?_cons_succ, hcond]
    · simp [List.get?_cons_zero, List.get?_cons_succ, hcond]

theorem parseFilterAux_eq :
    ∀ (args : List String) (acc : List (String × String)),
      parseFilterAux acc args =
        (claimFilterPairs args).foldl (fun acc pr => dictSet acc pr.1 pr.2) acc
  | [], acc => by simp [parseFilterAux, claimFilterPairs]
  | [a], acc => by
    rw [claimFilterPairs_cons]
    simp [parseFilterAux, claimFilterPairs]
  | a :: b :: rest2, acc => by
    rw [claimFilterPairs_cons]
    simp only [List.head?_cons]
    by_cases hsw : strBegins a "--" = true
    · by_cases hsb : strBegins b "--" = true
      · have hcond : (strBegins a "--" && !(strBegins b "--")) = false := by
          simp [hsw, hsb]
        rw [parseFilterAux, if_pos hsw, if_pos hsb, hcond]
        simp only [Bool.false_eq_true, if_false, List.nil_append]
        exact parseFilterAux_eq (b :: rest2) acc
      · have hsb' : strBegins b "--" = false := by simpa using hsb
        have hcond : (strBegins a "--" && !(strBegins b "--")) = true := by
          simp [hsw, hsb']
        rw [parseFilterAux, if_pos hsw, if_neg (by simp [hsb']), hcond]
        simp only [if_true, List.singleton_append, List.foldl_cons]
        rw [parseFilterAux_eq rest2 (dictSet acc (a.drop 2) b)]
        rw [claimFilterPairs_cons]
        cases rest2 with
        | nil => simp
        | cons x xs => simp [hsb']
    · have hsw' : strBegins a "--" = false := by simpa using hsw
      have hcond : (strBegins a "--" && !(strBegins b "--")) = false := by
        simp [hsw']
      rw [parseFilterAux, if_neg hsw, hcond]
      simp only [Bool.false_eq_true, if_false, List.nil_append]
      exact parseFilterAux_eq (b :: rest2) acc

/-- C9: for every argument token list, the filters dict built by
`parse_filter_args` is exactly the dict accumulated, in order, from the
pairs the claim describes: each `--key` token paired with the immediately
following token unless that token is absent or itself starts with `--`
(in which case the key is skipped), with tokens not consumed as values
ignored.  The second conjunct evaluates a representative token list. -/
theorem C9_parse_filter_args :
    (∀ args : List String, parse_filter_args args = claimFilterDict args) ∧
    parse_filter_args ["--priority", "high", "stray", "--epic", "--status", "todo"] =
      [("priority", "high"), ("status", "todo")] :=
  ⟨fun args => parseFilterAux_eq args [], by decide⟩

/-- The whitespace set of `shlex` (and of `str.strip`/`str.split` for the
ASCII inputs the shell reads). -/
def pyWs (c : Char) : Bool := c == ' ' || c == '\t' || c == '\r' || c == '\n'

/-- Python `str.strip()`: drop leading and trailing whitespace. -/
def pyStrip (s : String) : String :=
  String.mk (((s.data.dropWhile pyWs).reverse.dropWhile pyWs).reverse)

/-- The accumulator loop of Python `str.split()` with no separator
argument: split on whitespace runs, producing no empty tokens. -/
def pySplitAux : List Char → List Char → List String
  | [], tok => if tok.isEmpty then [] else [String.mk tok]
  | c :: cs, tok =>
    if pyWs c then
      if tok.isEmpty then pySplitAux cs [] else String.mk tok :: pySplitAux cs []
    else pySplitAux cs (tok ++ [c])

/-- Python `s.split()`. -/
def pySplit (s : String) : List String := pySplitAux s.data []

/-- The lexer states of `shlex` in POSIX mode with whitespace splitting:
between tokens, inside a plain word, inside single or double quotes, and
after an escape character seen outside quotes or inside double quotes. -/
inductive ShMode where
  | ws
  | word
  | squote
  | dquote
  | escOut
  | escDq
deriving DecidableEq

/-- The state machine of `shlex.split` (POSIX rules): single quotes are
fully literal; inside double quotes a backslash escapes only `"` and `\`
and is otherwise kept; outside quotes a backslash escapes any character; a
token is emitted at whitespace or end of input when it is nonempty or saw
quotes; `none` models the `ValueError` raised for an unclosed quote or a
trailing escape character. -/
def shlexRun : ShMode → List Char → Bool → List String → List Char → Option (List String)
  | .ws, _, _, acc, [] => some acc
  | .ws, tok, q, acc, c :: cs =>
    if pyWs c then shlexRun .ws [] false acc cs
    else if c == '\'' then shlexRun .squote tok true acc cs
    else if c == '"' then shlexRun .dquote tok true acc cs
    else if c == '\\' then shlexRun .escOut tok q acc cs
    else shlexRun .word (tok ++ [c]) q acc cs
  | .word, tok, q, acc, [] =>
    some (if tok.isEmpty && !q then acc else acc ++ [String.mk tok])
  | .word, tok, q, acc, c :: cs =>
    if pyWs c then
      shlexRun .ws [] false (if tok.isEmpty && !q then acc else acc ++ [String.mk tok]) cs
    else if c == '\'' then shlexRun .squote tok true acc cs
    else if c == '"' then shlexRun .dquote tok true acc cs
    else if c == '\\' then shlexRun .escOut tok q acc cs
    else shlexRun .word (tok ++ [c]) q acc cs
  | .squote, _, _, _, [] => none
  | .squote, tok, q, acc, c :: cs =>
    if c == '\'' then shlexRun .word tok q acc cs
    else shlexRun .squote (tok ++ [c]) q acc cs
  | .dquote, _, _, _, [] => none
  | .dquote, tok, q, acc, c :: cs =>
    if c == '"' then shlexRun .word tok q acc cs
    else if c == '\\' then shlexRun .escDq tok q acc cs
    else shlexRun .dquote (tok ++ [c]) q acc cs
  | .escOut, _, _, _, [] => none
  | .escOut, tok, q, acc, c :: cs => shlexRun .word (tok ++ [c]) q acc cs
  | .escDq, _, _, _, [] => none
  | .escDq, tok, q, acc, c :: cs =>
    if c == '"' || c == '\\' then shlexRun .dquote (tok ++ [c]) q acc cs
    else shlexRun .dquote (tok ++ ['\\', c]) q acc cs

theorem shlexRun_ws_cons (tok : List Char) (q : Bool) (acc : List String) (c : Char)
    (cs : List Char) :
    shlexRun .ws tok q acc (c :: cs) =
      if pyWs c then shlexRun .ws [] false acc cs
      else if c == '\'' then shlexRun .squote tok true acc cs
      else if c == '"' then shlexRun .dquote tok true acc cs
      else if c == '\\' then shlexRun .escOut tok q acc cs
      else shlexRun .word (tok ++ [c]) q acc cs := rfl

theorem shlexRun_word_cons (tok : List Char) (q : Bool) (acc : List String) (c : Char)
    (cs : List Char) :
    shlexRun .word tok q acc (c :: cs) =
      if pyWs c then
        shlexRun .ws [] false (if tok.isEmpty && !q then acc else acc ++ [String.mk tok]) cs
      else if c == '\'' then shlexRun .squote tok true acc cs
      else if c == '"' then shlexRun .dquote tok true acc cs
      else if c == '\\' then shlexRun .escOut tok q acc cs
      else shlexRun .word (tok ++ [c]) q acc cs := rfl

theorem shlexRun_word_nil (tok : List Char) (q : Bool) (acc : List String) :
    shlexRun .word tok q acc [] =
      some (if tok.isEmpty && !q then acc else acc ++ [String.mk tok]) := rfl

theorem shlexRun_dquote_cons (tok : List Char) (q : Bool) (acc : List String) (c : Char)
    (cs : List Char) :
    shlexRun .dquote tok q acc (c :: cs) =
      if c == '"' then shlexRun .word tok q acc cs
      else if c == '\\' then shlexRun .escDq tok q acc cs
      else shlexRun .dquote (tok ++ [c]) q acc cs := rfl

/-- Model of `shlex.split(s)`. -/
def shlexSplit (s : String) : Option (List String) :=
  shlexRun .ws [] false [] s.data

/-- Model of `parse_command`: strip the line, tokenize with `shlex`, and
on a `ValueError` fall back to naive whitespace splitting; the command is
the first token lowercased. -/
def parse_command (input : String) : Option String × List String :=
  match shlexSplit (pyStrip input) with
  | some parts =>
    match parts with
    | [] => (none, [])
    | t :: rest => (some (pyLower t), rest)
  | none =>
    match pySplit (pyStrip input) with
    | [] => (none, [])
    | t :: rest => (some (pyLower t), rest)

/-- A character that is ordinary for the lexer: not whitespace, not a
quote, not a backslash. -/
def plainChar (c : Char) : Bool :=
  !(pyWs c) && !(c == '\'') && !(c == '"') && !(c == '\\')

/-- A character that is literal inside double quotes: not `"`, not `\`
(spaces in particular qualify). -/
def dqSafeChar (c : Char) : Bool := !(c == '"') && !(c == '\\')

theorem shlexRun_word_plain :
    ∀ w : List Char, (∀ c ∈ w, plainChar c = true) →
      ∀ (tok : List Char) (q : Bool) (acc : List String) (rest : List Char),
        shlexRun .word tok q acc (w ++ rest) = shlexRun .word (tok ++ w) q acc rest := by
  intro w
  induction w with
  | nil => intro _ tok q acc rest; simp
  | cons c w' ih =>
    intro hw tok q acc rest
    have hc := hw c (List.mem_cons_self _ _)
    simp only [plainChar, Bool.and_eq_true, Bool.not_eq_true'] at hc
    obtain ⟨⟨⟨h1, h2⟩, h3⟩, h4⟩ := hc
    rw [List.cons_append, shlexRun_word_cons, if_neg (by simp [h1]),
      if_neg (by simp [h2]), if_neg (by simp [h3]), if_neg (by simp [h4])]
    rw [ih (fun x hx => hw x (List.mem_cons_of_mem _ hx)) (tok ++ [c]) q acc rest]
    simp

theorem shlexRun_dquote_safe :
    ∀ w : List Char, (∀ c ∈ w, dqSafeChar c = true) →
      ∀ (tok : List Char) (q : Bool) (acc : List String) (rest : List Char),
        shlexRun .dquote tok q acc (w ++ rest) = shlexRun .dquote (tok ++ w) q acc rest := by
  intro w
  induction w with
  | nil => intro _ tok q acc rest; simp
  | cons c w' ih =>
    intro hw tok q acc rest
    have hc := hw c (List.mem_cons_self _ _)
    simp only [dqSafeChar, Bool.and_eq_true, Bool.not_eq_true'] at hc
    obtain ⟨h1, h2⟩ := hc
    rw [List.cons_append, shlexRun_dquote_cons, if_neg (by simp [h1]),
      if_neg (by simp [h2])]
    rw [ih (fun x hx => hw x (List.mem_cons_of_mem _ hx)) (tok ++ [c]) q acc rest]
    simp

theorem shlexSplit_quoted_arg (cmd a : String) (hne : cmd.data ≠ [])
    (hcmd : ∀ c ∈ cmd.data, plainChar c = true)
    (ha : ∀ c ∈ a.data, dqSafeChar c = true) :
    shlexSplit (String.mk (cmd.data ++ ' ' :: '"' :: a.data ++ ['"'])) = some [cmd, a] := by
  obtain ⟨c₀, cs, hcmd_eq⟩ : ∃ c₀ cs, cmd.data = c₀ :: cs := by
    cases hc : cmd.data with
    | nil => exact absurd hc hne
    | cons x xs => exact ⟨x, xs, rfl⟩
  have h₀ := hcmd c₀ (by rw [hcmd_eq]; exact List.mem_cons_self _ _)
  simp only [plainChar, Bool.and_eq_true, Bool.not_eq_true'] at h₀
  obtain ⟨⟨⟨h1, h2⟩, h3⟩, h4⟩ := h₀
  show shlexRun .ws [] false [] (String.mk (cmd.data ++ ' ' :: '"' :: a.data ++ ['"'])).data =
    some [cmd, a]
  have hdata : (String.mk (cmd.data ++ ' ' :: '"' :: a.data ++ ['"'])).data =
      cmd.data ++ ' ' :: '"' :: a.data ++ ['"'] := rfl
  have hlist : (cmd.data ++ ' ' :: '"' :: a.data ++ ['"'] : List Char) =
      c₀ :: (cs ++ (' ' :: ('"' :: (a.data ++ ['"'])))) := by
    rw [hcmd_eq]
    simp
  rw [hdata, hlist, shlexRun_ws_cons, if_neg (by simp [h1]),
    if_neg (by simp [h2]), if_neg (by simp [h3]), if_neg (by simp [h4])]
  rw [show ([] ++ [c₀] : List Char) = [c₀] from rfl]
  have hcs : ∀ x ∈ cs, plainChar x = true := by
    intro x hx
    apply hcmd x
    rw [hcmd_eq]
    exact List.mem_cons_of_mem _ hx
  rw [shlexRun_word_plain cs hcs [c₀] false [] (' ' :: ('"' :: (a.data ++ ['"'])))]
  rw [shlexRun_word_cons, if_pos (by decide)]
  have hemit : (([c₀] ++ cs).isEmpty && !false) = false := by simp
  rw [hemit]
  simp only [Bool.false_eq_true, if_false, List.nil_append]
  have hmk : String.mk ([c₀] ++ cs) = cmd := by
    rw [show ([c₀] ++ cs : List Char) = c₀ :: cs from rfl, ← hcmd_eq]
  rw [hmk]
  rw [shlexRun_ws_cons, if_neg (by decide), if_neg (by decide), if_pos (by decide)]
  rw [shlexRun_dquote_safe a.data ha [] true [cmd] ['"']]
  rw [shlexRun_dquote_cons, if_pos (by decide)]
  rw [shlexRun_word_nil]
  have hq : (([] ++ a.data : List Char).isEmpty && !true) = false := by simp
  rw [hq]
  simp only [Bool.false_eq_true, if_false, List.nil_append]
  rfl

/-- C8: `parse_command` strips the line and tokenizes it with `shlex`
semantics (so a double-quoted argument containing spaces is one token,
stated in general by the third conjunct); when `shlex` tokenization fails
(unbalanced quote or trailing escape) it falls back to naive whitespace
splitting instead of failing; and the returned command token is always the
first token lowercased, making handler lookup case-insensitive. -/
theorem C8_parse_command :
    (∀ (line : String) (ts : List String), shlexSplit (pyStrip line) = some ts →
      parse_command line = (ts.head?.map pyLower, ts.tail)) ∧
    (∀ line : String, shlexSplit (pyStrip line) = none →
      parse_command line = ((pySplit (pyStrip line)).head?.map pyLower,
        (pySplit (pyStrip line)).tail)) ∧
    (∀ cmd a : String, cmd.data ≠ [] → (∀ c ∈ cmd.data, plainChar c = true) →
      (∀ c ∈ a.data, dqSafeChar c = true) →
      shlexSplit (String.mk (cmd.data ++ ' ' :: '"' :: a.data ++ ['"'])) = some [cmd, a]) ∧
    parse_command "  ADD \"User Login\" x " = (some "add", ["User Login", "x"]) ∧
    shlexSplit (pyStrip "add \"oops") = none ∧
    parse_command "add \"oops" = (some "add", ["\"oops"]) := by
  refine ⟨?_, ?_, shlexSplit_quoted_arg, by decide, by decide, by decide⟩
  · intro line ts h
    unfold parse_command
    rw [h]
    cases ts <;> simp
  · intro line h
    unfold parse_command
    rw [h]
    cases hsp : pySplit (pyStrip line) <;> simp

theorem C8_parse_command_witness :
    parse_command "USE web" = (some "use", ["web"]) ∧
    shlexSplit (String.mk (("use").data ++ ' ' :: '"' :: ("my project").data ++ ['"'])) =
      some ["use", "my project"] := by
  constructor
  · have h := C8_parse_command.1 "USE web" ["USE", "web"] (by decide)
    rw [h]
    decide
  · exact C8_parse_command.2.2.1 "use" "my project" (by decide) (by decide) (by decide)

end Backlogd
